import Mathlib

/-!
Verification development for dnsflow (src/dnsflow.c): a shallow embedding of
the packet-acceptance checks, the DNS projection, the batching emitter and the
BPF shard arithmetic, together with theorems settling the specification claims.

Captured packets are modelled as `List Nat` of byte values; multibyte integers
are read in network byte order exactly where the C code applies `ntohs`/`ntohl`.
Reads beyond the modelled byte list yield 0 (`List.getD`).
-/

/-- Read a 16-bit big-endian value at byte offset `off` (models `ntohs` applied
to a 2-byte field of the captured packet). -/
def rdU16 (p : List Nat) (off : Nat) : Nat :=
  p.getD off 0 * 256 + p.getD (off + 1) 0

/-- Read a 32-bit big-endian value at byte offset `off` (models `ntohl`). -/
def rdU32 (p : List Nat) (off : Nat) : Nat :=
  p.getD off 0 * 2 ^ 24 + p.getD (off + 1) 0 * 2 ^ 16 +
    p.getD (off + 2) 0 * 2 ^ 8 + p.getD (off + 3) 0

/-- Big-endian bytes of a 16-bit value (models `htons`). -/
def u16be (n : Nat) : List Nat :=
  [n / 256 % 256, n % 256]

/-- Big-endian bytes of a 32-bit value (models `htonl`). -/
def u32be (n : Nat) : List Nat :=
  [n / 2 ^ 24 % 256, n / 2 ^ 16 % 256, n / 2 ^ 8 % 256, n % 256]

/-- Normalize a byte string to exactly 4 bytes, zero-extending; models a 4-byte
`in_addr_t` store. -/
def bytes4 (x : List Nat) : List Nat :=
  (x ++ List.replicate 4 0).take 4

/-- Number of zero bytes needed to pad a buffer of length `L` to a multiple
of 4 (the `while (db_len % 4 != 0)` loop of `dnsflow_pkt_build`). -/
def padLen4 (L : Nat) : Nat :=
  (4 - L % 4) % 4

/-! ## Outer IPv4/UDP checks (`ip4_check`, `udp4_check`, `ip_udp_check`) -/

/-- Version nibble of the first byte of an IPv4 header (`ip->ip_v`). -/
def ipVersion (p : List Nat) : Nat := p.getD 0 0 / 16

/-- Header length in bytes (`ip->ip_hl << 2`). -/
def ipHdrLen (p : List Nat) : Nat := p.getD 0 0 % 16 * 4

/-- Total length field (`ntohs(ip->ip_len)`), at byte offset 2. -/
def ipTotLen (p : List Nat) : Nat := rdU16 p 2

/-- Protocol field (`ip->ip_p`), at byte offset 9. -/
def ipProto (p : List Nat) : Nat := p.getD 9 0

/-- Destination address bytes (`ip->ip_dst`), at byte offset 16. -/
def ipDst (p : List Nat) : List Nat := (p.drop 16).take 4

/-- UDP length field (`ntohs(udphdr->uh_ulen)`) of the UDP header that starts
right after the IP header of `p`. -/
def udpLenField (p : List Nat) : Nat := rdU16 p (ipHdrLen p + 4)

/-- UDP destination port (`udphdr->uh_dport`) of the UDP header after the IP
header of `p`. -/
def udpDstPort (p : List Nat) : Nat := rdU16 p (ipHdrLen p + 2)

/-- Embedding of `ip4_check` (src/dnsflow.c:490-512): version, header length
and packet length checks, in source order. -/
def ip4_check (pkt_len : Nat) (p : List Nat) : Bool :=
  if pkt_len < 20 then false
  else if ipVersion p ≠ 4 then false
  else if pkt_len < ipHdrLen p then false
  else if pkt_len < ipTotLen p then false
  else if ipTotLen p < ipHdrLen p then false
  else true

/-- Embedding of `udp4_check` (src/dnsflow.c:514-532): protocol and UDP length
checks, in source order. -/
def udp4_check (pkt_len : Nat) (p : List Nat) : Bool :=
  if ipProto p ≠ 17 then false
  else if pkt_len < 28 then false
  else if pkt_len < ipHdrLen p + udpLenField p then false
  else true

/-- Embedding of `ip_udp_check` (src/dnsflow.c:537-563): both header checks. -/
def ip_udp_check (pkt_len : Nat) (p : List Nat) : Bool :=
  ip4_check pkt_len p && udp4_check pkt_len p

/-- Bytes skipped past the outer UDP payload for pcap-record encapsulation:
`sizeof(struct pcap_sf_pkthdr) + sizeof(struct ether_header)` = 16 + 14. -/
def pcapRecordSkip : Nat := 30

/-- Bytes skipped for J-Mirror encapsulation: `sizeof(struct jmirror_hdr)`. -/
def jmirrorSkip : Nat := 8

/-- Embedding of the decapsulation part of `dnsflow_dcap_cb`
(src/dnsflow.c:840-891).  Given the configured encapsulation ports and the
captured bytes, it returns `none` on rejection, or
`some (dnsOff, dnsLenArg, clientIp)` where `dnsOff` is the byte offset handed
to `dnsflow_dns_check` as the DNS packet start, `dnsLenArg` is the length
argument the code passes (`ntohs(udphdr->uh_ulen)` of the innermost frame),
and `clientIp` is the 4-byte innermost IPv4 destination passed to
`dnsflow_pkt_build`. -/
def dnsflow_dcap_args (pcapPort jmPort pkt_len : Nat) (p : List Nat) :
    Option (Nat × Nat × List Nat) :=
  if ip_udp_check pkt_len p then
    let d0 := ipHdrLen p + 8
    let remaining := pkt_len - d0
    let off := if udpDstPort p = pcapPort then pcapRecordSkip
               else if udpDstPort p = jmPort then jmirrorSkip
               else 0
    if off = 0 then
      some (d0, udpLenField p, ipDst p)
    else if remaining < off then
      none
    else
      let q := p.drop (d0 + off)
      if ip_udp_check (remaining - off) q then
        some (d0 + off + ipHdrLen q + 8, udpLenField q, ipDst q)
      else
        none
  else
    none

/-! ## DNS decoder gate and projection (`dnsflow_dns_check`, `dnsflow_dns_extract`)

The wire parser is the external ldns library (`ldns_wire2pkt`); its outcome is
modelled as `Except String LdnsPkt` per the decoder contract (parse errors are
surfaced by a textual id).  `qdcount` of a parsed packet equals the length of
its question rr list, as ldns guarantees after a successful parse. -/

/-- Resource record as delivered by ldns accessors: owner name in wire form,
numeric rr type (A = 1, CNAME = 5) and the list of rdata fields. -/
structure LdnsRr where
  owner : List Nat
  rrType : Nat
  rdfs : List (List Nat)
deriving DecidableEq, Inhabited

/-- Parsed DNS message as seen through the ldns accessors used by the code. -/
structure LdnsPkt where
  qr : Bool
  rd : Bool
  ra : Bool
  rcode : Nat
  question : List LdnsRr
  answers : List LdnsRr
deriving DecidableEq, Inhabited

/-- Embedding of `dnsflow_dns_check` (src/dnsflow.c:585-624) given the parse
outcome: returns the accepted packet (or `none`) together with the log lines
produced. -/
def dnsflow_dns_check (parsed : Except String LdnsPkt) :
    Option LdnsPkt × List String :=
  match parsed with
  | .error e => (none, ["Bad DNS pkt: " ++ e])
  | .ok lp =>
    if ¬(lp.qr = true ∧ lp.rd = true ∧ lp.ra = true ∧ lp.rcode = 0) then
      (none, [])
    else if lp.question.length ≠ 1 then
      (none, [])
    else if (lp.question.getD 0 default).rrType ≠ 1 then
      (none, [])
    else
      (some lp, [])

/-- Projected response: `struct dns_data_set` (names plus ips, in order). -/
structure DnsDataSet where
  names : List (List Nat)
  ips : List (List Nat)
deriving DecidableEq, Inhabited

/-- One iteration of the rdata loop of `dnsflow_dns_extract`
(src/dnsflow.c:670-700): accumulate a CNAME target or an A address, logging
and skipping overlong or excess items. -/
def extractRdf (ty : Nat) (acc : DnsDataSet × List String) (rdf : List Nat) :
    DnsDataSet × List String :=
  if ty = 5 then
    if acc.1.names.length = 255 then (acc.1, acc.2 ++ ["Too many names"])
    else if 255 < rdf.length then (acc.1, acc.2 ++ ["Invalid name"])
    else ({ acc.1 with names := acc.1.names ++ [rdf] }, acc.2)
  else if ty = 1 then
    if acc.1.ips.length = 255 then (acc.1, acc.2 ++ ["Too many ips"])
    else ({ acc.1 with ips := acc.1.ips ++ [rdf.take 4] }, acc.2)
  else acc

/-- The nested answer/rdata loops of `dnsflow_dns_extract`
(src/dnsflow.c:656-701). -/
def extractAnswers (acc : DnsDataSet × List String) (rrs : List LdnsRr) :
    DnsDataSet × List String :=
  rrs.foldl (fun a rr => rr.rdfs.foldl (extractRdf rr.rrType) a) acc

/-- Embedding of `dnsflow_dns_extract` (src/dnsflow.c:628-712). -/
def dnsflow_dns_extract (lp : LdnsPkt) : Option DnsDataSet × List String :=
  let q := lp.question.getD 0 default
  if 255 < q.owner.length then
    (none, ["Invalid query string"])
  else
    let r := extractAnswers (⟨[q.owner], []⟩, []) lp.answers
    if r.1.names.length = 0 then (none, r.2)
    else if r.1.ips.length = 0 then (none, r.2)
    else (some r.1, r.2)

/-! ## Batcher (`dnsflow_pkt_build`, `dnsflow_pkt_send_data`, `dnsflow_stats_cb`)

One worker's packet-building state: the active wire buffer (`data_buf->pkt`
up to `db_len`; bytes past `db_len` are dead and are not modelled), the
`sequence_number` counter, the buffers emitted so far and the log lines. -/

structure FlowState where
  buf : List Nat
  seq : Nat
  emitted : List (List Nat)
  logs : List String
deriving DecidableEq, Inhabited

/-- Fresh `struct dnsflow_hdr` bytes written when a new pkt starts
(src/dnsflow.c:783-789): version 2, sets_count 0, flags 0, sequence 0 (the
sequence number is patched at send time). -/
def dnsflowHdrBytes : List Nat := [2, 0, 0, 0, 0, 0, 0, 0]

/-- Header initialization on `db_len == 0` (src/dnsflow.c:783-789). -/
def startBuf (st : FlowState) : FlowState :=
  if st.buf.length = 0 then { st with buf := dnsflowHdrBytes } else st

/-- The name-copy loop of `dnsflow_pkt_build` (src/dnsflow.c:806-816).
`L` is the absolute buffer offset where the next name would be written;
the guard `dns_data->name_lens[i] > pkt_end - pkt_cur` (with
`pkt_end = pkt_start + DNSFLOW_PKT_MAX_SIZE - 1`) is `65534 < L + len`.
Returns the concatenated name bytes, or `none` when the guard fires. -/
def copyNames : Nat → List (List Nat) → Option (List Nat)
  | _, [] => some []
  | L, n :: ns =>
    if 65534 < L + n.length then none
    else (copyNames (L + n.length) ns).map (fun rest => n ++ rest)

/-- Decidable success condition of `copyNames`: every name fits below the
buffer end when copied at its cumulative offset. -/
def namesFitB : Nat → List (List Nat) → Bool
  | _, [] => true
  | L, n :: ns => decide (L + n.length ≤ 65534) && namesFitB (L + n.length) ns

/-- Set construction of `dnsflow_pkt_build` (src/dnsflow.c:772-831), up to and
including the `sets_count` increment but before the size/count trigger:
header init, set header (client ip, `names_count = MIN(k,255)`,
`ips_count = MIN(m,255)`), name bytes, zero padding to a 4-byte boundary, the
backpatched `names_len`, and the 4-byte addresses.  Returns `none` when the
overflow guard fires (the caller then discards the buffer). -/
def appendSet (st : FlowState) (cip : List Nat) (d : DnsDataSet) :
    Option FlowState :=
  let st1 := startBuf st
  let nc := min d.names.length 255
  let ic := min d.ips.length 255
  (copyNames (st1.buf.length + 8) (d.names.take nc)).map fun nb =>
    let pl := padLen4 (st1.buf.length + 8 + nb.length)
    let nl := nb.length + pl
    let setBytes := bytes4 cip ++ [nc, ic] ++ u16be nl ++ nb ++
        List.replicate pl 0 ++ (d.ips.take ic).flatMap bytes4
    let buf2 := st1.buf ++ setBytes
    { st1 with buf := buf2.set 1 ((buf2.getD 1 0 + 1) % 256) }

/-- The discard branch of the overflow guard (src/dnsflow.c:806-812): log a
warning and abandon the buffer (`db_len = 0`) without emitting. -/
def abortBuild (st : FlowState) : FlowState :=
  let st1 := startBuf st
  { st1 with buf := [], logs := st1.logs ++ ["Pkt create error"] }

/-- Embedding of `dnsflow_pkt_send_data` (src/dnsflow.c:748-758): nothing on
an empty buffer; otherwise patch the sequence number (post-incrementing the
32-bit counter) and emit the buffer. -/
def dnsflow_pkt_send_data (st : FlowState) : FlowState :=
  if st.buf.length = 0 then st
  else
    { buf := [],
      seq := st.seq + 1,
      emitted := st.emitted ++ [st.buf.take 4 ++ u32be (st.seq % 2 ^ 32) ++ st.buf.drop 8],
      logs := st.logs }

/-- Embedding of `dnsflow_pkt_build` (src/dnsflow.c:772-838): append one set,
or discard on the overflow guard; then flush if `db_len` reached 1200 bytes
or `sets_count` reached 255. -/
def dnsflow_pkt_build (st : FlowState) (cip : List Nat) (d : DnsDataSet) :
    FlowState :=
  match appendSet st cip d with
  | none => abortBuild st
  | some st2 =>
    if 1200 ≤ st2.buf.length ∨ st2.buf.getD 1 0 = 255 then
      dnsflow_pkt_send_data st2
    else
      st2

/-- Capture counters as returned by `dcap_get_stats`. -/
structure DcapStat where
  captured : Nat
  psRecv : Nat
  psDrop : Nat
  psIfdrop : Nat
deriving DecidableEq, Inhabited

/-- Embedding of the wire-building part of `dnsflow_stats_cb`
(src/dnsflow.c:893-929): a one-set stats buffer with the STATS flag, stamped
from the same post-incremented sequence counter and emitted directly. -/
def dnsflow_stats_cb (st : FlowState) (ds : DcapStat) (rate : Nat) :
    FlowState :=
  { st with
    seq := st.seq + 1,
    emitted := st.emitted ++
      [[2, 1] ++ u16be 1 ++ u32be (st.seq % 2 ^ 32) ++
        u32be (ds.captured % 2 ^ 32) ++ u32be (ds.psRecv % 2 ^ 32) ++
        u32be (ds.psDrop % 2 ^ 32) ++ u32be (ds.psIfdrop % 2 ^ 32) ++
        u32be (rate % 2 ^ 32)] }

/-- Worker events that touch the packet-building state: an accepted response
reaching the batcher, the push timer's send, and the stats ticker. -/
inductive FlowEv where
  | pkt (cip : List Nat) (d : DnsDataSet)
  | push
  | stats (ds : DcapStat) (rate : Nat)
deriving DecidableEq

/-- One event-loop callback of a worker. -/
def flowStep (st : FlowState) : FlowEv → FlowState
  | .pkt cip d => dnsflow_pkt_build st cip d
  | .push => dnsflow_pkt_send_data st
  | .stats ds rate => dnsflow_stats_cb st ds rate

/-- A worker run: callbacks execute to completion, one after another. -/
def flowRun (st : FlowState) (evs : List FlowEv) : FlowState :=
  evs.foldl flowStep st

/-- Worker state at startup: `static uint32_t sequence_number = 1` and an
empty buffer. -/
def flowInit : FlowState := ⟨[], 1, [], []⟩

/-- Sequence number carried by an emitted wire buffer (bytes 4..7 of the
`dnsflow_hdr`, big endian). -/
def wireSeq (w : List Nat) : Nat := rdU32 w 4

/-! ## BPF filter builder shard clause (`build_pcap_filter`) -/

/-- Arithmetic meaning of the shard clause `build_pcap_filter` emits when
`num_procs > 1` (src/dnsflow.c:405-422):
`ip[ip_off+16:4] - ip[ip_off+16:4] / num_procs * num_procs = proc_i - 1`,
where `c` is the inner IPv4 destination read as a 32-bit big-endian integer.
BPF arithmetic is unsigned; `c - c / n * n` never underflows. -/
def shardClause (num_procs proc_i c : Nat) : Prop :=
  c - c / num_procs * num_procs = proc_i - 1

instance (n i c : Nat) : Decidable (shardClause n i c) := by
  unfold shardClause; infer_instance

/-! ## Spec-side predicates

These definitions follow the specification's words (not the code) and are
compared against the source embeddings in the claim theorems. -/

/-- The outer-frame acceptance condition as claim C7 states it: IPv4 with
version 4, header length at least 20 bytes and at most the captured length,
total length at most the captured length and at least the header length,
protocol UDP, the captured length holding UDP header plus payload, and the
UDP length field not exceeding the captured length. -/
def outerSpecClaim (pkt_len : Nat) (p : List Nat) : Prop :=
  ipVersion p = 4 ∧
  20 ≤ ipHdrLen p ∧ ipHdrLen p ≤ pkt_len ∧
  ipTotLen p ≤ pkt_len ∧ ipHdrLen p ≤ ipTotLen p ∧
  ipProto p = 17 ∧
  ipHdrLen p + udpLenField p ≤ pkt_len ∧
  udpLenField p ≤ pkt_len

instance (n : Nat) (p : List Nat) : Decidable (outerSpecClaim n p) := by
  unfold outerSpecClaim; infer_instance

/-- The outer-frame acceptance condition the code actually enforces, written
declaratively: like `outerSpecClaim` but with the two fixed-size bounds
`20 ≤ pkt_len` and `28 ≤ pkt_len` in place of any lower bound on the header
length field itself. -/
def outerAccepts (pkt_len : Nat) (p : List Nat) : Prop :=
  20 ≤ pkt_len ∧ ipVersion p = 4 ∧
  ipHdrLen p ≤ pkt_len ∧
  ipTotLen p ≤ pkt_len ∧ ipHdrLen p ≤ ipTotLen p ∧
  ipProto p = 17 ∧ 28 ≤ pkt_len ∧
  ipHdrLen p + udpLenField p ≤ pkt_len

instance (n : Nat) (p : List Nat) : Decidable (outerAccepts n p) := by
  unfold outerAccepts; infer_instance

/-- The DNS acceptance gate as the spec states it: the payload parses and the
message has QR=1, RD=1, RA=1, RCODE=NOERROR, exactly one question, and that
question of type A. -/
def dnsAccepts (parsed : Except String LdnsPkt) : Prop :=
  ∃ lp, parsed = .ok lp ∧
    lp.qr = true ∧ lp.rd = true ∧ lp.ra = true ∧ lp.rcode = 0 ∧
    lp.question.length = 1 ∧ (lp.question.getD 0 default).rrType = 1

/-- All CNAME target rdata fields of the answer section, in answer order. -/
def cnameRdfs (lp : LdnsPkt) : List (List Nat) :=
  lp.answers.flatMap fun rr => if rr.rrType = 5 then rr.rdfs else []

/-- The CNAME targets that pass the 255-byte wire-form length bound. -/
def goodCnames (lp : LdnsPkt) : List (List Nat) :=
  (cnameRdfs lp).filter fun r => r.length ≤ 255

/-- All A rdata fields of the answer section (as the 4 bytes the code reads),
in answer order. -/
def aIps (lp : LdnsPkt) : List (List Nat) :=
  lp.answers.flatMap fun rr =>
    if rr.rrType = 5 then [] else if rr.rrType = 1 then rr.rdfs.map (fun r => r.take 4) else []

/-! ## Helper lemmas -/

/-- Wire bytes of one data set as `dnsflow_pkt_build` lays them out when the
overflow guard does not fire, for a buffer of length `L` at set start:
client ip, `names_count`, `ips_count`, `names_len` (big endian), the
concatenated names, the zero padding to a 4-byte boundary, and the 4-byte
addresses. -/
def setWire (L : Nat) (cip : List Nat) (d : DnsDataSet) : List Nat :=
  let nc := min d.names.length 255
  let ic := min d.ips.length 255
  let nb := (d.names.take nc).flatten
  let pl := padLen4 (L + 8 + nb.length)
  bytes4 cip ++ [nc, ic] ++ u16be (nb.length + pl) ++ nb ++
    List.replicate pl 0 ++ (d.ips.take ic).flatMap bytes4

/-! ## Worker invariant

Reachable packet-building states: the sequence counter is one ahead of the
number of emitted buffers, the active buffer is empty or holds a header and
whole sets (length a multiple of 4), and the `k`-th emitted buffer carries
sequence number `(1 + k) mod 2^32`. -/

def WorkerInv (st : FlowState) : Prop :=
  st.seq = 1 + st.emitted.length ∧
  (st.buf = [] ∨ (8 ≤ st.buf.length ∧ st.buf.length % 4 = 0)) ∧
  ∀ k, k < st.emitted.length → wireSeq (st.emitted.getD k []) = (1 + k) % 2 ^ 32

/-! ## Extraction-loop characterization -/

/-- The answer section flattened to (type, rdata) pairs, in traversal order. -/
def rrPairs (rrs : List LdnsRr) : List (Nat × List Nat) :=
  rrs.flatMap fun rr => rr.rdfs.map fun r => (rr.rrType, r)

/-- The rdata loop of `dnsflow_dns_extract` over flattened pairs. -/
def pairsFold (acc : DnsDataSet × List String) (ps : List (Nat × List Nat)) :
    DnsDataSet × List String :=
  ps.foldl (fun a p => extractRdf p.1 a p.2) acc

/-- CNAME rdata among the pairs, unfiltered. -/
def pairCnamesAll (ps : List (Nat × List Nat)) : List (List Nat) :=
  ps.filterMap fun p => if p.1 = 5 then some p.2 else none

/-- CNAME rdata among the pairs that pass the 255-byte bound. -/
def pairCnames (ps : List (Nat × List Nat)) : List (List Nat) :=
  ps.filterMap fun p =>
    if p.1 = 5 then (if p.2.length ≤ 255 then some p.2 else none) else none

/-- A rdata among the pairs, as 4-byte reads. -/
def pairIps (ps : List (Nat × List Nat)) : List (List Nat) :=
  ps.filterMap fun p =>
    if p.1 = 5 then none else if p.1 = 1 then some (p.2.take 4) else none

/-! ## Claim theorems -/

/-- C7 counterexample: a 28-byte frame whose IPv4 header-length field is 2
(8 bytes, less than the 20 the claim demands) passes both outer checks, so
the claimed acceptance condition is not equivalent to the code's. -/
def c7pkt : List Nat :=
  [66, 0, 0, 28, 0, 0, 0, 0, 0, 17, 0, 0, 0, 20, 0, 0,
   0, 0, 0, 0, 0, 0, 0, 0, 0, 0, 0, 0]

/-- C3 witness: a concrete accepting message and a concrete parse failure,
instantiating the gate theorem. -/
def ex3pkt : LdnsPkt :=
  { qr := true, rd := true, ra := true, rcode := 0,
    question := [⟨[3, 99, 111, 109, 0], 1, []⟩],
    answers := [] }

/-- C8 failing input: a plain (unencapsulated) 33-byte IPv4/UDP frame whose
UDP length field is 13, so its DNS payload is the 5 bytes at offsets 28..32. -/
def c8pkt : List Nat :=
  [69, 0, 0, 33, 0, 0, 0, 0, 0, 17, 0, 0, 0, 0, 0, 0,
   10, 0, 0, 9, 0, 53, 0, 99, 0, 13, 0, 0, 1, 2, 3, 4, 5]

/-- C4 counterexample input: an accepted-shaped message whose CNAME answer
carries a 256-byte target, together with a normal A answer. -/
def c4pkt : LdnsPkt :=
  { qr := true, rd := true, ra := true, rcode := 0,
    question := [⟨[3, 102, 111, 111, 0], 1, []⟩],
    answers := [⟨[3, 102, 111, 111, 0], 5, [List.replicate 256 1]⟩,
                ⟨[3, 102, 111, 111, 0], 1, [[1, 2, 3, 4]]⟩] }

/-- C4 witness input: a plain accepted response with one A answer. -/
def c4wpkt : LdnsPkt :=
  { qr := true, rd := true, ra := true, rcode := 0,
    question := [⟨[3, 102, 111, 111, 0], 1, []⟩],
    answers := [⟨[3, 102, 111, 111, 0], 1, [[9, 8, 7, 6]]⟩] }

/-- C1 witness inputs: an empty buffer, client 10.0.0.7, and the response
`example.com → 93.184.216.34` (wire-form name, 13 bytes). -/
def c1st : FlowState := ⟨[], 1, [], []⟩

/-- C1 witness data: one name, one address. -/
def c1data : DnsDataSet :=
  ⟨[[7, 101, 120, 97, 109, 112, 108, 101, 3, 99, 111, 109, 0]],
   [[93, 184, 216, 34]]⟩

/-- C6 witness input: a nearly full reachable-shape buffer. -/
def c6st : FlowState := ⟨List.replicate 65528 0, 5, [], []⟩

/-- C6 witness data: a single 255-byte name that cannot fit. -/
def c6data : DnsDataSet := ⟨[List.replicate 255 7], [[1, 2, 3, 4]]⟩

/-- C10 failing input: a maximal accepted response — 255 names of 255 bytes
and 255 addresses — reaching the batcher with an empty buffer. -/
def c10data : DnsDataSet :=
  ⟨List.replicate 255 (List.replicate 255 1), List.replicate 255 [1, 2, 3, 4]⟩

/-! ## Lemmas and claim theorems -/

lemma bytes4_length (x : List Nat) : (bytes4 x).length = 4 := by
  simp [bytes4]

lemma bytes4_of_length_four {x : List Nat} (h : x.length = 4) : bytes4 x = x := by
  unfold bytes4
  rw [List.take_append_of_le_length (by omega), List.take_of_length_le (by omega)]

lemma flatMap_bytes4_length (l : List (List Nat)) :
    (l.flatMap bytes4).length = 4 * l.length := by
  induction l with
  | nil => simp
  | cons x xs ih =>
    simp [List.flatMap_cons, ih, bytes4_length]
    ring

lemma flatMap_bytes4_of_all_four {l : List (List Nat)}
    (h : ∀ x ∈ l, x.length = 4) : l.flatMap bytes4 = l.flatten := by
  induction l with
  | nil => rfl
  | cons x xs ih =>
    simp only [List.flatMap_cons, List.flatten_cons]
    rw [bytes4_of_length_four (h x (by simp)), ih (fun y hy => h y (by simp [hy]))]

lemma set_append_of_lt {α : Type} (a b : List α) (i : Nat) (v : α)
    (h : i < a.length) : (a ++ b).set i v = a.set i v ++ b := by
  induction a generalizing i with
  | nil => simp at h
  | cons x xs ih =>
    cases i with
    | zero => simp
    | succ j =>
      simp only [List.cons_append, List.set_cons_succ]
      rw [ih j (by simpa using h)]

lemma copyNames_eq_some {L : Nat} {ns : List (List Nat)} {v : List Nat}
    (h : copyNames L ns = some v) : v = ns.flatten := by
  induction ns generalizing L v with
  | nil => simp [copyNames] at h; simp [h.symm]
  | cons n ns ih =>
    by_cases hg : 65534 < L + n.length
    · simp [copyNames, hg] at h
    · simp only [copyNames, if_neg hg, Option.map_eq_some'] at h
      obtain ⟨rest, hrest, hv⟩ := h
      rw [← hv, ih hrest, List.flatten_cons]

lemma copyNames_of_fit {L : Nat} {ns : List (List Nat)}
    (h : namesFitB L ns = true) : copyNames L ns = some ns.flatten := by
  induction ns generalizing L with
  | nil => simp [copyNames]
  | cons n ns ih =>
    simp only [namesFitB, Bool.and_eq_true, decide_eq_true_eq] at h
    simp [copyNames, Nat.not_lt.mpr h.1, ih h.2]

lemma copyNames_eq_none_iff {L : Nat} {ns : List (List Nat)} :
    copyNames L ns = none ↔
      ∃ pre n suf, ns = pre ++ n :: suf ∧
        65534 < L + pre.flatten.length + n.length := by
  induction ns generalizing L with
  | nil =>
    simp only [copyNames]
    constructor
    · intro h; cases h
    · rintro ⟨pre, n, suf, h, -⟩
      exact absurd h (by simp)
  | cons m ms ih =>
    constructor
    · intro h
      by_cases hg : 65534 < L + m.length
      · exact ⟨[], m, ms, rfl, by simpa using hg⟩
      · simp only [copyNames, if_neg hg, Option.map_eq_none'] at h
        obtain ⟨pre, n, suf, hsplit, hb⟩ := ih.mp h
        refine ⟨m :: pre, n, suf, by simp [hsplit], ?_⟩
        simp only [List.flatten_cons, List.length_append] at hb ⊢
        omega
    · rintro ⟨pre, n, suf, hsplit, hb⟩
      cases pre with
      | nil =>
        simp only [List.nil_append] at hsplit
        cases hsplit
        simp only [List.flatten_nil, List.length_nil] at hb
        have hg : 65534 < L + m.length := by omega
        simp [copyNames, hg]
      | cons p ps =>
        simp only [List.cons_append] at hsplit
        obtain ⟨hm, hms⟩ := List.cons.inj hsplit
        by_cases hg : 65534 < L + m.length
        · simp [copyNames, hg]
        · simp only [copyNames, if_neg hg, Option.map_eq_none']
          refine ih.mpr ⟨ps, n, suf, hms, ?_⟩
          subst hm
          simp only [List.flatten_cons, List.length_append] at hb
          omega

lemma copyNames_eq_none_of_not_fit {L : Nat} {ns : List (List Nat)}
    (h : namesFitB L ns = false) : copyNames L ns = none := by
  induction ns generalizing L with
  | nil => simp [namesFitB] at h
  | cons n ns ih =>
    simp only [namesFitB, Bool.and_eq_false_iff] at h
    rcases h with h | h
    · have : 65534 < L + n.length := by
        by_contra hc
        simp [decide_eq_true_eq, Nat.not_lt.mp hc] at h
      simp [copyNames, this]
    · by_cases hg : 65534 < L + n.length
      · simp [copyNames, hg]
      · simp [copyNames, hg, ih h]

lemma getD_set_of_lt {α : Type} [Inhabited α] (l : List α) (i : Nat) (v d : α)
    (h : i < l.length) : (l.set i v).getD i d = v := by
  induction l generalizing i with
  | nil => simp at h
  | cons x xs ih =>
    cases i with
    | zero => simp
    | succ j => simpa using ih j (by simpa using h)

lemma padLen4_aligns (L : Nat) : (L + padLen4 L) % 4 = 0 := by
  unfold padLen4; omega

lemma u32be_decode (s : Nat) :
    s / 2 ^ 24 % 256 * 2 ^ 24 + s / 2 ^ 16 % 256 * 2 ^ 16 +
      s / 2 ^ 8 % 256 * 2 ^ 8 + s % 256 = s % 2 ^ 32 := by
  have h24 : (2 : Nat) ^ 24 = 16777216 := by norm_num
  have h16 : (2 : Nat) ^ 16 = 65536 := by norm_num
  have h8 : (2 : Nat) ^ 8 = 256 := by norm_num
  have h32 : (2 : Nat) ^ 32 = 4294967296 := by norm_num
  rw [h24, h16, h8, h32]
  omega

lemma wireSeq_patch (l m : List Nat) (s : Nat) (hl : l.length = 4) :
    wireSeq (l ++ u32be s ++ m) = s % 2 ^ 32 := by
  have e4 : (l ++ u32be s ++ m).getD 4 0 = s / 2 ^ 24 % 256 := by
    rw [List.append_assoc, List.getD_append_right l _ 0 4 (by omega),
      List.getD_append _ m 0 _ (by simp [u32be, hl])]
    simp [u32be, hl]
  have e5 : (l ++ u32be s ++ m).getD 5 0 = s / 2 ^ 16 % 256 := by
    rw [List.append_assoc, List.getD_append_right l _ 0 5 (by omega),
      List.getD_append _ m 0 _ (by simp [u32be, hl])]
    simp [u32be, hl]
  have e6 : (l ++ u32be s ++ m).getD 6 0 = s / 2 ^ 8 % 256 := by
    rw [List.append_assoc, List.getD_append_right l _ 0 6 (by omega),
      List.getD_append _ m 0 _ (by simp [u32be, hl])]
    simp [u32be, hl]
  have e7 : (l ++ u32be s ++ m).getD 7 0 = s % 256 := by
    rw [List.append_assoc, List.getD_append_right l _ 0 7 (by omega),
      List.getD_append _ m 0 _ (by simp [u32be, hl])]
    simp [u32be, hl]
  unfold wireSeq rdU32
  simp only [show (4 : Nat) + 1 = 5 from rfl, show (4 : Nat) + 2 = 6 from rfl,
    show (4 : Nat) + 3 = 7 from rfl]
  rw [e4, e5, e6, e7]
  exact u32be_decode s

lemma appendSet_char {st : FlowState} {cip : List Nat} {d : DnsDataSet}
    {st2 : FlowState} (h : appendSet st cip d = some st2) :
    st2 = { startBuf st with
      buf := ((startBuf st).buf ++ setWire (startBuf st).buf.length cip d).set 1
        ((((startBuf st).buf ++ setWire (startBuf st).buf.length cip d).getD 1 0 + 1) % 256) } := by
  unfold appendSet at h
  rw [Option.map_eq_some'] at h
  obtain ⟨nb, hnb, hst⟩ := h
  have hv := copyNames_eq_some hnb
  subst hv
  rw [← hst]
  simp [setWire]

lemma appendSet_eq_none_iff {st : FlowState} {cip : List Nat} {d : DnsDataSet} :
    appendSet st cip d = none ↔
      copyNames ((startBuf st).buf.length + 8)
        (d.names.take (min d.names.length 255)) = none := by
  unfold appendSet
  simp

lemma appendSet_of_fit {st : FlowState} {cip : List Nat} {d : DnsDataSet}
    (h : namesFitB ((startBuf st).buf.length + 8)
      (d.names.take (min d.names.length 255)) = true) :
    ∃ st2, appendSet st cip d = some st2 := by
  rcases he : appendSet st cip d with _ | st2
  · rw [appendSet_eq_none_iff] at he
    rw [copyNames_of_fit h] at he
    cases he
  · exact ⟨st2, rfl⟩

lemma setWire_length (L : Nat) (cip : List Nat) (d : DnsDataSet) :
    (setWire L cip d).length =
      8 + ((d.names.take (min d.names.length 255)).flatten.length +
        padLen4 (L + 8 + (d.names.take (min d.names.length 255)).flatten.length)) +
      4 * min d.ips.length 255 := by
  have hips : (d.ips.take (min d.ips.length 255)).length = min d.ips.length 255 := by
    rw [List.length_take]
    omega
  simp only [setWire, List.length_append, bytes4_length, u16be,
    List.length_cons, List.length_nil, List.length_replicate,
    flatMap_bytes4_length, hips]
  omega

lemma startBuf_length_wf (st : FlowState)
    (h : st.buf = [] ∨ (8 ≤ st.buf.length ∧ st.buf.length % 4 = 0)) :
    8 ≤ (startBuf st).buf.length ∧ (startBuf st).buf.length % 4 = 0 := by
  unfold startBuf
  rcases h with h | h
  · simp [h, dnsflowHdrBytes]
  · have : ¬ st.buf.length = 0 := by omega
    simp [this, h.1, h.2]

lemma mod32_idem (a : Nat) : a % 2 ^ 32 % 2 ^ 32 = a % 2 ^ 32 := by
  have h32 : (2 : Nat) ^ 32 = 4294967296 := by norm_num
  rw [h32]
  omega

lemma emitted_getD_last (l : List (List Nat)) (w : List Nat) :
    (l ++ [w]).getD l.length [] = w := by
  rw [List.getD_append_right l [w] [] l.length (by omega)]
  simp

lemma emitted_getD_old (l : List (List Nat)) (w : List Nat) {k : Nat}
    (hk : k < l.length) : (l ++ [w]).getD k [] = l.getD k [] := by
  exact List.getD_append l [w] [] k hk

lemma sendData_inv {st : FlowState} (h : WorkerInv st) :
    WorkerInv (dnsflow_pkt_send_data st) := by
  obtain ⟨hseq, hbuf, hemit⟩ := h
  unfold dnsflow_pkt_send_data
  by_cases hz : st.buf.length = 0
  · simp only [hz, if_pos rfl]
    exact ⟨hseq, hbuf, hemit⟩
  · rcases hbuf with hbuf | hbuf
    · simp [hbuf] at hz
    · rw [if_neg hz]
      refine ⟨by simp [hseq]; omega, Or.inl rfl, ?_⟩
      intro k hk
      simp only [List.length_append, List.length_cons, List.length_nil] at hk
      by_cases hlt : k < st.emitted.length
      · rw [emitted_getD_old _ _ hlt]
        exact hemit k hlt
      · have hke : k = st.emitted.length := by omega
        subst hke
        rw [emitted_getD_last]
        have hl4 : (st.buf.take 4).length = 4 := by
          rw [List.length_take]
          omega
        rw [wireSeq_patch _ _ _ hl4, mod32_idem, hseq]

lemma statsCb_inv {st : FlowState} (ds : DcapStat) (rate : Nat)
    (h : WorkerInv st) : WorkerInv (dnsflow_stats_cb st ds rate) := by
  obtain ⟨hseq, hbuf, hemit⟩ := h
  unfold dnsflow_stats_cb
  refine ⟨by simp [hseq]; omega, by simpa using hbuf, ?_⟩
  intro k hk
  simp only [List.length_append, List.length_cons, List.length_nil] at hk
  by_cases hlt : k < st.emitted.length
  · rw [emitted_getD_old _ _ hlt]
    exact hemit k hlt
  · have hke : k = st.emitted.length := by omega
    subst hke
    rw [emitted_getD_last]
    have hshape : [2, 1] ++ u16be 1 ++ u32be (st.seq % 2 ^ 32) ++
        u32be (ds.captured % 2 ^ 32) ++ u32be (ds.psRecv % 2 ^ 32) ++
        u32be (ds.psDrop % 2 ^ 32) ++ u32be (ds.psIfdrop % 2 ^ 32) ++
        u32be (rate % 2 ^ 32) =
        ([2, 1] ++ u16be 1) ++ u32be (st.seq % 2 ^ 32) ++
        (u32be (ds.captured % 2 ^ 32) ++ u32be (ds.psRecv % 2 ^ 32) ++
         u32be (ds.psDrop % 2 ^ 32) ++ u32be (ds.psIfdrop % 2 ^ 32) ++
         u32be (rate % 2 ^ 32)) := by
      simp [List.append_assoc]
    rw [hshape, wireSeq_patch _ _ _ (by simp [u16be]), mod32_idem, hseq]

lemma startBuf_fields (st : FlowState) :
    (startBuf st).seq = st.seq ∧ (startBuf st).emitted = st.emitted ∧
      (startBuf st).logs = st.logs := by
  unfold startBuf
  split <;> simp

lemma appendSet_fields {st : FlowState} {cip : List Nat} {d : DnsDataSet}
    {st2 : FlowState} (h : appendSet st cip d = some st2) :
    st2.seq = st.seq ∧ st2.emitted = st.emitted ∧ st2.logs = st.logs ∧
    st2.buf.length =
      (startBuf st).buf.length + (setWire (startBuf st).buf.length cip d).length := by
  obtain ⟨hs, he, hl⟩ := startBuf_fields st
  rw [appendSet_char h]
  simp [hs, he, hl]

lemma appendSet_buf_wf {st : FlowState} {cip : List Nat} {d : DnsDataSet}
    {st2 : FlowState}
    (hwf : st.buf = [] ∨ (8 ≤ st.buf.length ∧ st.buf.length % 4 = 0))
    (h : appendSet st cip d = some st2) :
    8 ≤ st2.buf.length ∧ st2.buf.length % 4 = 0 := by
  obtain ⟨hL, hL4⟩ := startBuf_length_wf st hwf
  have hf := (appendSet_fields h).2.2.2
  rw [hf, setWire_length]
  have hp := padLen4_aligns ((startBuf st).buf.length + 8 +
    (d.names.take (min d.names.length 255)).flatten.length)
  unfold padLen4 at hp ⊢
  omega

lemma pktBuild_inv {st : FlowState} {cip : List Nat} {d : DnsDataSet}
    (h : WorkerInv st) : WorkerInv (dnsflow_pkt_build st cip d) := by
  obtain ⟨hseq, hbuf, hemit⟩ := h
  obtain ⟨hs, he, hl⟩ := startBuf_fields st
  unfold dnsflow_pkt_build
  rcases happ : appendSet st cip d with _ | st2
  · refine ⟨?_, Or.inl (by simp [abortBuild]), ?_⟩
    · simp [abortBuild, hs, he, hseq]
    · intro k hk
      simp only [abortBuild] at hk ⊢
      rw [he] at hk ⊢
      exact hemit k hk
  · have hfields := appendSet_fields happ
    have hinv2 : WorkerInv st2 := by
      refine ⟨?_, Or.inr (appendSet_buf_wf hbuf happ), ?_⟩
      · rw [hfields.1, hfields.2.1, hseq]
      · intro k hk
        rw [hfields.2.1] at hk ⊢
        exact hemit k hk
    show WorkerInv (if 1200 ≤ st2.buf.length ∨ st2.buf.getD 1 0 = 255 then
      dnsflow_pkt_send_data st2 else st2)
    by_cases htrig : 1200 ≤ st2.buf.length ∨ st2.buf.getD 1 0 = 255
    · rw [if_pos htrig]
      exact sendData_inv hinv2
    · rw [if_neg htrig]
      exact hinv2

lemma flowStep_inv {st : FlowState} (ev : FlowEv) (h : WorkerInv st) :
    WorkerInv (flowStep st ev) := by
  cases ev with
  | pkt cip d => exact pktBuild_inv h
  | push => exact sendData_inv h
  | stats ds rate => exact statsCb_inv ds rate h

lemma flowRun_inv (evs : List FlowEv) {st : FlowState} (h : WorkerInv st) :
    WorkerInv (flowRun st evs) := by
  induction evs generalizing st with
  | nil => exact h
  | cons e es ih =>
    rw [flowRun, List.foldl_cons]
    exact ih (flowStep_inv e h)

lemma flowInit_inv : WorkerInv flowInit := by
  refine ⟨rfl, Or.inl rfl, ?_⟩
  intro k hk
  simp [flowInit] at hk

lemma pairsFold_cons (acc : DnsDataSet × List String) (p : Nat × List Nat)
    (ps : List (Nat × List Nat)) :
    pairsFold acc (p :: ps) = pairsFold (extractRdf p.1 acc p.2) ps := rfl

lemma rrPairs_cons (rr : LdnsRr) (rrs : List LdnsRr) :
    rrPairs (rr :: rrs) = (rr.rdfs.map fun r => (rr.rrType, r)) ++ rrPairs rrs := by
  simp [rrPairs]

lemma extractAnswers_eq_pairs (acc : DnsDataSet × List String)
    (rrs : List LdnsRr) : extractAnswers acc rrs = pairsFold acc (rrPairs rrs) := by
  induction rrs generalizing acc with
  | nil => rfl
  | cons rr rrs ih =>
    rw [extractAnswers, List.foldl_cons]
    show extractAnswers (rr.rdfs.foldl (extractRdf rr.rrType) acc) rrs = _
    rw [ih, rrPairs_cons]
    unfold pairsFold
    rw [List.foldl_append, List.foldl_map]

lemma filterMap_if_le (l : List (List Nat)) :
    (l.filterMap fun r => if r.length ≤ 255 then some r else none) =
      l.filter fun r => r.length ≤ 255 := by
  induction l with
  | nil => rfl
  | cons x xs ih =>
    rw [List.filterMap_cons, List.filter_cons]
    by_cases h : x.length ≤ 255 <;> simp [h, ih]

lemma pairCnamesAll_append (a b : List (Nat × List Nat)) :
    pairCnamesAll (a ++ b) = pairCnamesAll a ++ pairCnamesAll b := by
  simp [pairCnamesAll]

lemma pairCnames_append (a b : List (Nat × List Nat)) :
    pairCnames (a ++ b) = pairCnames a ++ pairCnames b := by
  simp [pairCnames]

lemma pairIps_append (a b : List (Nat × List Nat)) :
    pairIps (a ++ b) = pairIps a ++ pairIps b := by
  simp [pairIps]

lemma pairCnamesAll_map (ty : Nat) (l : List (List Nat)) :
    pairCnamesAll (l.map fun r => (ty, r)) = if ty = 5 then l else [] := by
  unfold pairCnamesAll
  rw [List.filterMap_map]
  by_cases h : ty = 5
  · subst h
    simp [Function.comp_def]
  · simp [Function.comp_def, h]

lemma pairCnames_map (ty : Nat) (l : List (List Nat)) :
    pairCnames (l.map fun r => (ty, r)) =
      if ty = 5 then l.filter (fun r => r.length ≤ 255) else [] := by
  unfold pairCnames
  rw [List.filterMap_map]
  by_cases h : ty = 5
  · subst h
    simp only [Function.comp_def, if_pos rfl]
    simpa using filterMap_if_le l
  · simp [Function.comp_def, h]

lemma filterMap_some_take (l : List (List Nat)) :
    (l.filterMap fun x => some (x.take 4)) = l.map fun r => r.take 4 := by
  induction l with
  | nil => rfl
  | cons x xs ih => simp [List.filterMap_cons, ih]

lemma pairIps_map (ty : Nat) (l : List (List Nat)) :
    pairIps (l.map fun r => (ty, r)) =
      if ty = 5 then [] else if ty = 1 then l.map (fun r => r.take 4) else [] := by
  unfold pairIps
  rw [List.filterMap_map]
  by_cases h5 : ty = 5
  · subst h5
    simp [Function.comp_def]
  · by_cases h1 : ty = 1
    · subst h1
      simp only [Function.comp_def, if_neg h5, if_pos rfl]
      simpa using filterMap_some_take l
    · simp [Function.comp_def, h5, h1]

lemma pairCnamesAll_rrPairs (rrs : List LdnsRr) :
    pairCnamesAll (rrPairs rrs) =
      rrs.flatMap fun rr => if rr.rrType = 5 then rr.rdfs else [] := by
  induction rrs with
  | nil => rfl
  | cons rr rrs ih =>
    rw [rrPairs_cons, List.flatMap_cons, pairCnamesAll_append,
      pairCnamesAll_map, ih]

lemma pairCnames_rrPairs (rrs : List LdnsRr) :
    pairCnames (rrPairs rrs) =
      (rrs.flatMap fun rr => if rr.rrType = 5 then rr.rdfs else []).filter
        (fun r => r.length ≤ 255) := by
  induction rrs with
  | nil => rfl
  | cons rr rrs ih =>
    rw [rrPairs_cons, List.flatMap_cons, pairCnames_append, pairCnames_map,
      ih, List.filter_append]
    by_cases h : rr.rrType = 5 <;> simp [h]

lemma pairIps_rrPairs (rrs : List LdnsRr) :
    pairIps (rrPairs rrs) =
      rrs.flatMap fun rr =>
        if rr.rrType = 5 then []
        else if rr.rrType = 1 then rr.rdfs.map (fun r => r.take 4) else [] := by
  induction rrs with
  | nil => rfl
  | cons rr rrs ih =>
    rw [rrPairs_cons, List.flatMap_cons, pairIps_append, pairIps_map, ih]

lemma pairsFold_names (ps : List (Nat × List Nat)) :
    ∀ acc : DnsDataSet × List String, acc.1.names.length ≤ 255 →
      (pairsFold acc ps).1.names =
        acc.1.names ++ (pairCnames ps).take (255 - acc.1.names.length) := by
  induction ps with
  | nil =>
    intro acc hacc
    simp [pairsFold, pairCnames]
  | cons p rest ih =>
    rintro acc hacc
    obtain ⟨ty, r⟩ := p
    rw [pairsFold_cons]
    by_cases hty5 : ty = 5
    · subst hty5
      by_cases hfull : acc.1.names.length = 255
      · have hstep : extractRdf 5 acc r = (acc.1, acc.2 ++ ["Too many names"]) := by
          simp [extractRdf, hfull]
        rw [hstep, ih _ (by simpa using hacc)]
        simp [hfull]
      · by_cases hlen : 255 < r.length
        · have hstep : extractRdf 5 acc r = (acc.1, acc.2 ++ ["Invalid name"]) := by
            simp [extractRdf, hfull, hlen]
          have hpc : pairCnames ((5, r) :: rest) = pairCnames rest := by
            simp [pairCnames, List.filterMap_cons, Nat.not_le.mpr hlen]
          rw [hstep, ih _ (by simpa using hacc), hpc]
        · have hstep : extractRdf 5 acc r =
              ({ acc.1 with names := acc.1.names ++ [r] }, acc.2) := by
            simp [extractRdf, hfull, hlen]
          have hlt : acc.1.names.length < 255 := by omega
          rw [hstep, ih _ (by simp; omega)]
          have hpc : pairCnames ((5, r) :: rest) = r :: pairCnames rest := by
            simp [pairCnames, List.filterMap_cons, Nat.not_lt.mp hlen]
          rw [hpc]
          have hsub : 255 - acc.1.names.length = (255 - (acc.1.names.length + 1)) + 1 := by
            omega
          rw [hsub, List.take_succ_cons]
          simp [List.append_assoc]
    · have hnames : (extractRdf ty acc r).1.names = acc.1.names := by
        unfold extractRdf
        rw [if_neg hty5]
        by_cases hty1 : ty = 1
        · rw [if_pos hty1]
          by_cases hifull : acc.1.ips.length = 255
          · rw [if_pos hifull]
          · rw [if_neg hifull]
        · rw [if_neg hty1]
      have hpc : pairCnames ((ty, r) :: rest) = pairCnames rest := by
        simp [pairCnames, List.filterMap_cons, hty5]
      rw [ih _ (by rw [hnames]; exact hacc), hnames, hpc]

lemma pairsFold_ips (ps : List (Nat × List Nat)) :
    ∀ acc : DnsDataSet × List String, acc.1.ips.length ≤ 255 →
      (pairsFold acc ps).1.ips =
        acc.1.ips ++ (pairIps ps).take (255 - acc.1.ips.length) := by
  induction ps with
  | nil =>
    intro acc hacc
    simp [pairsFold, pairIps]
  | cons p rest ih =>
    rintro acc hacc
    obtain ⟨ty, r⟩ := p
    rw [pairsFold_cons]
    by_cases hty5 : ty = 5
    · subst hty5
      have hips : (extractRdf 5 acc r).1.ips = acc.1.ips := by
        unfold extractRdf
        rw [if_pos rfl]
        by_cases hfull : acc.1.names.length = 255
        · rw [if_pos hfull]
        · rw [if_neg hfull]
          by_cases hlen : 255 < r.length
          · rw [if_pos hlen]
          · rw [if_neg hlen]
      have hpi : pairIps ((5, r) :: rest) = pairIps rest := by
        simp [pairIps, List.filterMap_cons]
      rw [ih _ (by rw [hips]; exact hacc), hips, hpi]
    · by_cases hty1 : ty = 1
      · subst hty1
        by_cases hifull : acc.1.ips.length = 255
        · have hstep : extractRdf 1 acc r = (acc.1, acc.2 ++ ["Too many ips"]) := by
            simp [extractRdf, hty5, hifull]
          rw [hstep, ih _ (by simpa using hacc)]
          simp [hifull]
        · have hstep : extractRdf 1 acc r =
              ({ acc.1 with ips := acc.1.ips ++ [r.take 4] }, acc.2) := by
            simp [extractRdf, hty5, hifull]
          have hlt : acc.1.ips.length < 255 := by omega
          rw [hstep, ih _ (by simp; omega)]
          have hpi : pairIps ((1, r) :: rest) = r.take 4 :: pairIps rest := by
            simp [pairIps, List.filterMap_cons]
          rw [hpi]
          have hsub : 255 - acc.1.ips.length = (255 - (acc.1.ips.length + 1)) + 1 := by
            omega
          rw [hsub, List.take_succ_cons]
          simp [List.append_assoc]
      · have hips : (extractRdf ty acc r).1.ips = acc.1.ips := by
          unfold extractRdf
          rw [if_neg hty5, if_neg hty1]
        have hpi : pairIps ((ty, r) :: rest) = pairIps rest := by
          simp [pairIps, List.filterMap_cons, hty5, hty1]
        rw [ih _ (by rw [hips]; exact hacc), hips, hpi]

lemma extractRdf_logs (ty : Nat) (acc : DnsDataSet × List String)
    (r : List Nat) : ∃ t, (extractRdf ty acc r).2 = acc.2 ++ t := by
  unfold extractRdf
  split_ifs <;> first
    | exact ⟨_, rfl⟩
    | exact ⟨[], (List.append_nil _).symm⟩

lemma pairsFold_logs_mono (ps : List (Nat × List Nat)) :
    ∀ acc : DnsDataSet × List String, ∃ t, (pairsFold acc ps).2 = acc.2 ++ t := by
  induction ps with
  | nil =>
    intro acc
    exact ⟨[], by simp [pairsFold]⟩
  | cons p rest ih =>
    intro acc
    obtain ⟨t1, h1⟩ := extractRdf_logs p.1 acc p.2
    obtain ⟨t2, h2⟩ := ih (extractRdf p.1 acc p.2)
    exact ⟨t1 ++ t2, by rw [pairsFold_cons, h2, h1, List.append_assoc]⟩

lemma pairsFold_silent (ps : List (Nat × List Nat)) :
    ∀ acc : DnsDataSet × List String, (pairsFold acc ps).2 = acc.2 →
      (pairsFold acc ps).1.names = acc.1.names ++ pairCnamesAll ps ∧
      (pairsFold acc ps).1.ips = acc.1.ips ++ pairIps ps := by
  induction ps with
  | nil =>
    intro acc _
    simp [pairsFold, pairCnamesAll, pairIps]
  | cons p rest ih =>
    rintro acc hsil
    obtain ⟨ty, r⟩ := p
    rw [pairsFold_cons] at hsil ⊢
    simp only [] at hsil ⊢
    by_cases hty5 : ty = 5
    · subst hty5
      by_cases hfull : acc.1.names.length = 255
      · exfalso
        have hstep : extractRdf 5 acc r = (acc.1, acc.2 ++ ["Too many names"]) := by
          simp [extractRdf, hfull]
        rw [hstep] at hsil
        obtain ⟨t, ht⟩ :=
          pairsFold_logs_mono rest (acc.1, acc.2 ++ ["Too many names"])
        rw [ht] at hsil
        have := congrArg List.length hsil
        simp at this
      · by_cases hlen : 255 < r.length
        · exfalso
          have hstep : extractRdf 5 acc r = (acc.1, acc.2 ++ ["Invalid name"]) := by
            simp [extractRdf, hfull, hlen]
          rw [hstep] at hsil
          obtain ⟨t, ht⟩ :=
            pairsFold_logs_mono rest (acc.1, acc.2 ++ ["Invalid name"])
          rw [ht] at hsil
          have := congrArg List.length hsil
          simp at this
        · have hstep : extractRdf 5 acc r =
              ({ acc.1 with names := acc.1.names ++ [r] }, acc.2) := by
            simp [extractRdf, hfull, hlen]
          rw [hstep] at hsil ⊢
          obtain ⟨hn, hi⟩ := ih _ hsil
          refine ⟨?_, ?_⟩
          · rw [hn]
            have hpc : pairCnamesAll ((5, r) :: rest) = r :: pairCnamesAll rest := by
              simp [pairCnamesAll, List.filterMap_cons]
            rw [hpc]
            simp [List.append_assoc]
          · rw [hi]
            have hpi : pairIps ((5, r) :: rest) = pairIps rest := by
              simp [pairIps, List.filterMap_cons]
            rw [hpi]
    · by_cases hty1 : ty = 1
      · subst hty1
        by_cases hifull : acc.1.ips.length = 255
        · exfalso
          have hstep : extractRdf 1 acc r = (acc.1, acc.2 ++ ["Too many ips"]) := by
            simp [extractRdf, hty5, hifull]
          rw [hstep] at hsil
          obtain ⟨t, ht⟩ :=
            pairsFold_logs_mono rest (acc.1, acc.2 ++ ["Too many ips"])
          rw [ht] at hsil
          have := congrArg List.length hsil
          simp at this
        · have hstep : extractRdf 1 acc r =
              ({ acc.1 with ips := acc.1.ips ++ [r.take 4] }, acc.2) := by
            simp [extractRdf, hty5, hifull]
          rw [hstep] at hsil ⊢
          obtain ⟨hn, hi⟩ := ih _ hsil
          refine ⟨?_, ?_⟩
          · rw [hn]
            have hpc : pairCnamesAll ((1, r) :: rest) = pairCnamesAll rest := by
              simp [pairCnamesAll, List.filterMap_cons]
            rw [hpc]
          · rw [hi]
            have hpi : pairIps ((1, r) :: rest) = r.take 4 :: pairIps rest := by
              simp [pairIps, List.filterMap_cons]
            rw [hpi]
            simp [List.append_assoc]
      · have hstep : extractRdf ty acc r = acc := by
          unfold extractRdf
          rw [if_neg hty5, if_neg hty1]
        rw [hstep] at hsil ⊢
        obtain ⟨hn, hi⟩ := ih _ hsil
        refine ⟨?_, ?_⟩
        · rw [hn]
          have hpc : pairCnamesAll ((ty, r) :: rest) = pairCnamesAll rest := by
            simp [pairCnamesAll, List.filterMap_cons, hty5]
          rw [hpc]
        · rw [hi]
          have hpi : pairIps ((ty, r) :: rest) = pairIps rest := by
            simp [pairIps, List.filterMap_cons, hty5, hty1]
          rw [hpi]

/-- C9: for every worker count `n > 1` and every 32-bit client address `c`,
the shard clause emitted by `build_pcap_filter`,
`ip[off:4] - ip[off:4] / n * n == proc_i - 1`, holds for a worker index
`proc_i` in `1..n` exactly when `proc_i = c mod n + 1`; hence exactly one
worker's filter accepts a response to client `c`. -/
theorem c9_shard_disjoint (n c : Nat) (hn : 1 < n) (hc : c < 2 ^ 32)
    (i : Nat) : (1 ≤ i ∧ i ≤ n ∧ shardClause n i c) ↔ i = c % n + 1 := by
  have key : c - c / n * n = c % n := by
    have h := Nat.mod_add_div c n
    rw [Nat.mul_comm] at h
    exact Nat.sub_eq_of_eq_add h.symm
  have hmod : c % n < n := Nat.mod_lt _ (by omega)
  unfold shardClause
  rw [key]
  revert hmod
  generalize c % n = m
  intro hmod
  omega

/-- C9 witness: with 3 workers and client address 7, worker 2 (and only a
worker index equal to 2) passes the shard clause. -/
theorem c9_shard_disjoint_witness :
    (1 ≤ 2 ∧ 2 ≤ 3 ∧ shardClause 3 2 7) ↔ 2 = 7 % 3 + 1 :=
  c9_shard_disjoint 3 7 (by norm_num) (by norm_num) 2

/-- C7 (amended): a captured frame passes `ip_udp_check` exactly when it is
IPv4 with version 4, the captured length is at least the 20-byte fixed header
size, the header length field (in bytes) is at most the captured length, the
total length is at most the captured length and at least the header length,
the protocol is UDP, the captured length is at least the 28 bytes of fixed
IP plus UDP headers, and the header length plus the UDP length field is at
most the captured length.  (The code never requires the header length field
itself to be at least 20.) -/
theorem c7_outer_accept_iff (pkt_len : Nat) (p : List Nat) :
    ip_udp_check pkt_len p = true ↔ outerAccepts pkt_len p := by
  unfold ip_udp_check ip4_check udp4_check outerAccepts
  rw [Bool.and_eq_true]
  constructor
  · rintro ⟨h1, h2⟩
    split_ifs at h1 h2 <;> simp_all <;> omega
  · rintro ⟨ha, hb, hc, hd, he, hf, hg, hh⟩
    split_ifs <;> simp_all <;> omega

/-- C7 is refuted as stated: `c7pkt` passes the outer checks although its
header length is 8 < 20, violating the claimed if-and-only-if condition. -/
theorem c7_counterexample :
    ip_udp_check 28 c7pkt = true ∧ ipHdrLen c7pkt = 8 ∧
      ¬ outerSpecClaim 28 c7pkt := by
  refine ⟨by decide, by decide, ?_⟩
  intro h
  have h20 := h.2.1
  have : ipHdrLen c7pkt = 8 := by decide
  omega

/-- C3: the DNS gate accepts a payload exactly when it parses and has QR=1,
RD=1, RA=1, RCODE=NOERROR, one question, of type A; a parse failure is
dropped with one log line naming the ldns error id; every other rejection,
and every acceptance, logs nothing. -/
theorem c3_dns_gate (parsed : Except String LdnsPkt) :
    ((dnsflow_dns_check parsed).1 ≠ none ↔ dnsAccepts parsed) ∧
    (∀ lp, (dnsflow_dns_check parsed).1 = some lp → parsed = .ok lp) ∧
    (∀ e, parsed = .error e →
      (dnsflow_dns_check parsed).1 = none ∧
      (dnsflow_dns_check parsed).2 = ["Bad DNS pkt: " ++ e]) ∧
    (∀ lp, parsed = .ok lp → (dnsflow_dns_check parsed).2 = []) := by
  cases parsed with
  | error e =>
    refine ⟨?_, ?_, ?_, ?_⟩ <;> simp [dnsflow_dns_check, dnsAccepts]
  | ok lp =>
    refine ⟨?_, ?_, ?_, ?_⟩
    · simp only [dnsflow_dns_check, dnsAccepts]
      split_ifs with h1 h2 h3 <;> simp_all
    · intro lp2
      simp only [dnsflow_dns_check]
      split_ifs with h1 h2 h3 <;> simp_all
    · intro e he
      cases he
    · intro lp2 hlp
      simp only [dnsflow_dns_check]
      split_ifs with h1 h2 h3 <;> simp_all

/-- C3 witness: evaluates the gate on `ex3pkt` (accepted, silent) and on a
parse error (dropped, one log line). -/
theorem c3_dns_gate_witness :
    ((dnsflow_dns_check (.ok ex3pkt)).1 ≠ none ↔ dnsAccepts (.ok ex3pkt)) ∧
    (dnsflow_dns_check (.ok ex3pkt)).2 = [] ∧
    ((dnsflow_dns_check (.error "parse fail")).1 = none ∧
     (dnsflow_dns_check (.error "parse fail")).2 =
       ["Bad DNS pkt: " ++ "parse fail"]) :=
  ⟨(c3_dns_gate (.ok ex3pkt)).1,
   (c3_dns_gate (.ok ex3pkt)).2.2.2 ex3pkt rfl,
   (c3_dns_gate (.error "parse fail")).2.2.1 "parse fail" rfl⟩

/-- C8: `dnsflow_dcap_cb` hands the DNS parser the byte range starting at the
UDP payload but with length `ntohs(uh_ulen)` — the full UDP length including
the 8-byte UDP header — instead of the payload length `uh_ulen - 8`.  On
`c8pkt` the payload is 5 bytes, yet 13 bytes are handed over, and the handed
range `[28, 28+13)` runs 8 bytes past the 33 captured bytes.  The recorded
client ip (the innermost IPv4 destination) is as the claim states. -/
theorem c8_payload_length_bug :
    dnsflow_dcap_args 7777 30030 33 c8pkt = some (28, 13, [10, 0, 0, 9]) ∧
    udpLenField c8pkt = 13 ∧
    udpLenField c8pkt - 8 = 5 ∧
    (13 : Nat) ≠ udpLenField c8pkt - 8 ∧
    33 < 28 + 13 := by
  refine ⟨by decide, by decide, by decide, by decide, by decide⟩

/-- C4 (amended): the projection puts the question's owner name first, then
appends CNAME targets (in answer order, those within the 255-byte bound,
at most 254 of them) to `names` and A rdata (at most 255) to `ips`, ignoring
other types; the response is rejected exactly when the question's owner name
exceeds 255 bytes or no A rdata was collected — an overlong CNAME target is
skipped (with a log line), not a rejection; and whenever the projection
accepts without logging anything, nothing was discarded: every CNAME target
was within bounds and the 255-item caps were not exceeded. -/
theorem c4_projection (lp : LdnsPkt) :
    ((dnsflow_dns_extract lp).1 = none ↔
      255 < (lp.question.getD 0 default).owner.length ∨ aIps lp = []) ∧
    (∀ ds, (dnsflow_dns_extract lp).1 = some ds →
      ds.names = (lp.question.getD 0 default).owner :: (goodCnames lp).take 254 ∧
      ds.ips = (aIps lp).take 255) ∧
    ((dnsflow_dns_extract lp).1 ≠ none → (dnsflow_dns_extract lp).2 = [] →
      goodCnames lp = cnameRdfs lp ∧ (cnameRdfs lp).length ≤ 254 ∧
      (aIps lp).length ≤ 255) := by
  by_cases hq : 255 < (lp.question.getD 0 default).owner.length
  · have hres : dnsflow_dns_extract lp = (none, ["Invalid query string"]) := by
      unfold dnsflow_dns_extract
      rw [if_pos hq]
    rw [hres]
    refine ⟨Iff.intro (fun _ => Or.inl hq) (fun _ => rfl), ?_, ?_⟩
    · intro ds hds
      cases hds
    · intro hne
      simp at hne
  · have hEA := extractAnswers_eq_pairs
      ((⟨[(lp.question.getD 0 default).owner], []⟩, []) : DnsDataSet × List String)
      lp.answers
    have hnames := pairsFold_names (rrPairs lp.answers)
      (⟨[(lp.question.getD 0 default).owner], []⟩, []) (by simp)
    have hips := pairsFold_ips (rrPairs lp.answers)
      (⟨[(lp.question.getD 0 default).owner], []⟩, []) (by simp)
    simp only [List.singleton_append, List.length_cons, List.length_nil,
      List.length_singleton] at hnames hips
    have hcn : pairCnames (rrPairs lp.answers) = goodCnames lp := by
      rw [pairCnames_rrPairs]
      rfl
    have hip : pairIps (rrPairs lp.answers) = aIps lp := by
      rw [pairIps_rrPairs]
      rfl
    rw [hcn] at hnames
    rw [hip] at hips
    have hres : dnsflow_dns_extract lp =
        (if (pairsFold (⟨[(lp.question.getD 0 default).owner], []⟩, [])
              (rrPairs lp.answers)).1.ips.length = 0
         then (none,
           (pairsFold (⟨[(lp.question.getD 0 default).owner], []⟩, [])
             (rrPairs lp.answers)).2)
         else (some (pairsFold (⟨[(lp.question.getD 0 default).owner], []⟩, [])
             (rrPairs lp.answers)).1,
           (pairsFold (⟨[(lp.question.getD 0 default).owner], []⟩, [])
             (rrPairs lp.answers)).2)) := by
      unfold dnsflow_dns_extract
      rw [if_neg hq, hEA, if_neg (by rw [hnames]; simp)]
    have hipslen : (pairsFold (⟨[(lp.question.getD 0 default).owner], []⟩, [])
        (rrPairs lp.answers)).1.ips.length = 0 ↔ aIps lp = [] := by
      rw [hips]
      simp
    by_cases hz : (pairsFold (⟨[(lp.question.getD 0 default).owner], []⟩, [])
        (rrPairs lp.answers)).1.ips.length = 0
    · rw [hres, if_pos hz]
      refine ⟨by simp [hipslen.mp hz], ?_, ?_⟩
      · intro ds hds
        cases hds
      · intro hne
        simp at hne
    · rw [hres, if_neg hz]
      refine ⟨?_, ?_, ?_⟩
      · constructor
        · intro h
          cases h
        · intro h
          rcases h with h | h
          · exact absurd h hq
          · exact absurd (hipslen.mpr h) hz
      · intro ds hds
        injection hds with hds2
        subst hds2
        refine ⟨?_, ?_⟩
        · rw [hnames]
        · rw [hips]
          simp
      · intro _ hsil
        simp only [] at hsil
        have hsilent := pairsFold_silent (rrPairs lp.answers)
          (⟨[(lp.question.getD 0 default).owner], []⟩, []) (by rw [hsil])
        obtain ⟨hsn, hsi⟩ := hsilent
        have hcall : pairCnamesAll (rrPairs lp.answers) = cnameRdfs lp := by
          rw [pairCnamesAll_rrPairs]
          rfl
        rw [hcall] at hsn
        rw [hip] at hsi
        rw [hnames] at hsn
        rw [hips] at hsi
        simp only [List.singleton_append, List.nil_append] at hsn hsi
        have hAll : cnameRdfs lp = (goodCnames lp).take 254 := by
          have := List.cons.inj hsn
          exact this.2.symm
        have hlen1 := congrArg List.length hAll
        rw [List.length_take] at hlen1
        have hle : (goodCnames lp).length ≤ (cnameRdfs lp).length := by
          unfold goodCnames
          exact List.length_filter_le _ _
        have hgle : (goodCnames lp).length ≤ 254 := by omega
        have hgood : (goodCnames lp).take 254 = goodCnames lp :=
          List.take_of_length_le hgle
        rw [hgood] at hAll
        have hiple : (aIps lp).length ≤ 255 := by
          have := congrArg List.length hsi
          rw [List.length_take] at this
          omega
        exact ⟨hAll.symm, by rw [hAll]; exact hgle, hiple⟩

set_option maxRecDepth 40000 in
/-- C4 is refuted as stated: `c4pkt` contains a name (a CNAME target) of 256
bytes, yet the projection does not reject the response — it skips the
overlong name with a log line and accepts with the question name and the A
address. -/
theorem c4_counterexample :
    (∃ r ∈ cnameRdfs c4pkt, 255 < r.length) ∧
    (dnsflow_dns_extract c4pkt).1 =
      some ⟨[[3, 102, 111, 111, 0]], [[1, 2, 3, 4]]⟩ ∧
    "Invalid name" ∈ (dnsflow_dns_extract c4pkt).2 := by
  refine ⟨⟨List.replicate 256 1, by decide, by decide⟩, by decide, by decide⟩

/-- C4 witness: instantiates the projection theorem on `c4wpkt`, discharging
its hypotheses by evaluation. -/
theorem c4_projection_witness :
    ((⟨[[3, 102, 111, 111, 0]], [[9, 8, 7, 6]]⟩ : DnsDataSet).names =
        (c4wpkt.question.getD 0 default).owner :: (goodCnames c4wpkt).take 254 ∧
      (⟨[[3, 102, 111, 111, 0]], [[9, 8, 7, 6]]⟩ : DnsDataSet).ips =
        (aIps c4wpkt).take 255) ∧
    (goodCnames c4wpkt = cnameRdfs c4wpkt ∧ (cnameRdfs c4wpkt).length ≤ 254 ∧
      (aIps c4wpkt).length ≤ 255) :=
  ⟨(c4_projection c4wpkt).2.1 ⟨[[3, 102, 111, 111, 0]], [[9, 8, 7, 6]]⟩ (by decide),
   (c4_projection c4wpkt).2.2 (by decide) (by decide)⟩

lemma drop_set_append {α : Type} (a b : List α) (i : Nat) (v : α)
    (h : i < a.length) : ((a ++ b).set i v).drop a.length = b := by
  rw [set_append_of_lt a b i v h]
  have hl : a.length = (a.set i v).length := (List.length_set a i v).symm
  rw [hl, List.drop_left]

lemma appendSet_drop {st : FlowState} {cip : List Nat} {d : DnsDataSet}
    {st2 : FlowState}
    (hwf : st.buf = [] ∨ (8 ≤ st.buf.length ∧ st.buf.length % 4 = 0))
    (h : appendSet st cip d = some st2) :
    st2.buf.drop (startBuf st).buf.length =
      setWire (startBuf st).buf.length cip d := by
  obtain ⟨h8, _⟩ := startBuf_length_wf st hwf
  have hc := appendSet_char h
  subst hc
  exact drop_set_append _ _ _ _ (by omega)

/-- C1: when an append is not discarded by the overflow guard (precisely the
hypothesis `appendSet st cip d = some st2`), on a well-formed buffer and a
response with `k` names of at most 255 wire-form bytes each and `m` 4-byte
IPv4 addresses, the appended data set consists of: the 4 client-ip octets,
`names_count = min(k,255)`, `ips_count = min(m,255)`, a 16-bit big-endian
`names_len` that is a multiple of 4, then exactly the `names_count` name
byte strings concatenated in order followed by zero padding of `names_len`
total bytes, then the `4 × ips_count` address bytes octet-for-octet in
answer order. -/
theorem c1_data_set_layout (st : FlowState) (cip : List Nat) (d : DnsDataSet)
    (st2 : FlowState)
    (hwf : st.buf = [] ∨ (8 ≤ st.buf.length ∧ st.buf.length % 4 = 0))
    (hcip : cip.length = 4)
    (hnames : ∀ n ∈ d.names, n.length ≤ 255)
    (hips : ∀ x ∈ d.ips, x.length = 4)
    (happ : appendSet st cip d = some st2) :
    st2.buf.drop (startBuf st).buf.length =
      cip ++ [min d.names.length 255, min d.ips.length 255] ++
      u16be ((d.names.take (min d.names.length 255)).flatten.length +
        padLen4 ((startBuf st).buf.length + 8 +
          (d.names.take (min d.names.length 255)).flatten.length)) ++
      (d.names.take (min d.names.length 255)).flatten ++
      List.replicate (padLen4 ((startBuf st).buf.length + 8 +
        (d.names.take (min d.names.length 255)).flatten.length)) 0 ++
      (d.ips.take (min d.ips.length 255)).flatten ∧
    ((d.names.take (min d.names.length 255)).flatten.length +
      padLen4 ((startBuf st).buf.length + 8 +
        (d.names.take (min d.names.length 255)).flatten.length)) % 4 = 0 ∧
    st2.buf.length = (startBuf st).buf.length + 8 +
      ((d.names.take (min d.names.length 255)).flatten.length +
        padLen4 ((startBuf st).buf.length + 8 +
          (d.names.take (min d.names.length 255)).flatten.length)) +
      4 * min d.ips.length 255 := by
  obtain ⟨h8, h4⟩ := startBuf_length_wf st hwf
  refine ⟨?_, ?_, ?_⟩
  · rw [appendSet_drop hwf happ]
    simp only [setWire]
    rw [bytes4_of_length_four hcip,
      flatMap_bytes4_of_all_four
        (fun x hx => hips x (List.mem_of_mem_take hx))]
  · have hp := padLen4_aligns ((startBuf st).buf.length + 8 +
      (d.names.take (min d.names.length 255)).flatten.length)
    omega
  · have hf := (appendSet_fields happ).2.2.2
    rw [hf, setWire_length]
    ring

/-- C1 witness: the layout theorem instantiated on `c1st`/`c1data`, all
hypotheses discharged by evaluation. -/
theorem c1_data_set_layout_witness :
    ∃ st2, appendSet c1st [10, 0, 0, 7] c1data = some st2 ∧
      (st2.buf.drop (startBuf c1st).buf.length =
        [10, 0, 0, 7] ++ [min c1data.names.length 255, min c1data.ips.length 255] ++
        u16be ((c1data.names.take (min c1data.names.length 255)).flatten.length +
          padLen4 ((startBuf c1st).buf.length + 8 +
            (c1data.names.take (min c1data.names.length 255)).flatten.length)) ++
        (c1data.names.take (min c1data.names.length 255)).flatten ++
        List.replicate (padLen4 ((startBuf c1st).buf.length + 8 +
          (c1data.names.take (min c1data.names.length 255)).flatten.length)) 0 ++
        (c1data.ips.take (min c1data.ips.length 255)).flatten) := by
  rcases happ : appendSet c1st [10, 0, 0, 7] c1data with _ | st2
  · exact absurd happ (by decide)
  · exact ⟨st2, rfl,
      (c1_data_set_layout c1st [10, 0, 0, 7] c1data st2 (Or.inl rfl) (by decide)
        (by decide) (by decide) happ).1⟩

/-- C5: after every append that the overflow guard does not discard, either
the flush trigger did not fire — the buffer is below 1200 bytes and holds
fewer than 255 sets — or the buffer length is 0 because the append itself
flushed (emitting exactly one buffer). -/
theorem c5_size_trigger (st : FlowState) (cip : List Nat) (d : DnsDataSet)
    (st2 : FlowState) (happ : appendSet st cip d = some st2) :
    ((dnsflow_pkt_build st cip d).buf.length = 0 ∧
      (dnsflow_pkt_build st cip d).emitted.length = st.emitted.length + 1) ∨
    ((dnsflow_pkt_build st cip d).buf.length < 1200 ∧
      (dnsflow_pkt_build st cip d).buf.getD 1 0 < 255) := by
  have hlen2 : st2.buf.length =
      (startBuf st).buf.length + (setWire (startBuf st).buf.length cip d).length :=
    (appendSet_fields happ).2.2.2
  have hsw := setWire_length (startBuf st).buf.length cip d
  have hpos : st2.buf.length ≠ 0 := by omega
  unfold dnsflow_pkt_build
  rw [happ]
  simp only []
  by_cases htrig : 1200 ≤ st2.buf.length ∨ st2.buf.getD 1 0 = 255
  · rw [if_pos htrig]
    left
    unfold dnsflow_pkt_send_data
    rw [if_neg hpos]
    refine ⟨rfl, ?_⟩
    have hemit : st2.emitted = st.emitted := (appendSet_fields happ).2.1
    simp [hemit]
  · rw [if_neg htrig]
    right
    push_neg at htrig
    have hchar := appendSet_char happ
    have hlenAB : 1 <
        ((startBuf st).buf ++ setWire (startBuf st).buf.length cip d).length := by
      rw [List.length_append]
      omega
    have hgd : st2.buf.getD 1 0 =
        (((startBuf st).buf ++ setWire (startBuf st).buf.length cip d).getD 1 0 + 1) % 256 := by
      rw [hchar]
      exact getD_set_of_lt _ _ _ _ hlenAB
    have hb : st2.buf.getD 1 0 < 256 := by
      rw [hgd]
      exact Nat.mod_lt _ (by norm_num)
    exact ⟨htrig.1, by omega⟩

/-- C5 witness: the small append of `c1data` neither flushes nor overflows:
one set, 36 bytes, sets_count 1. -/
theorem c5_size_trigger_witness :
    ((dnsflow_pkt_build c1st [10, 0, 0, 7] c1data).buf.length = 0 ∧
      (dnsflow_pkt_build c1st [10, 0, 0, 7] c1data).emitted.length =
        c1st.emitted.length + 1) ∨
    ((dnsflow_pkt_build c1st [10, 0, 0, 7] c1data).buf.length < 1200 ∧
      (dnsflow_pkt_build c1st [10, 0, 0, 7] c1data).buf.getD 1 0 < 255) := by
  rcases happ : appendSet c1st [10, 0, 0, 7] c1data with _ | st2
  · exact absurd happ (by decide)
  · exact c5_size_trigger c1st [10, 0, 0, 7] c1data st2 happ

/-- C6: if copying some name would exceed the 65 535-byte buffer capacity
(its end offset passing 65 535), the whole current buffer is discarded:
`len := 0`, one warning is logged, nothing is emitted and the sequence
number is not advanced.  Conversely this guard is the only way an append
leaves an empty buffer without emitting: any other append either keeps a
nonempty buffer or emits. -/
theorem c6_overflow_guard (st : FlowState) (cip : List Nat) (d : DnsDataSet) :
    ((∃ pre n suf,
        d.names.take (min d.names.length 255) = pre ++ n :: suf ∧
        65535 < (startBuf st).buf.length + 8 + pre.flatten.length + n.length) →
      dnsflow_pkt_build st cip d = abortBuild st ∧
      (abortBuild st).buf = [] ∧ (abortBuild st).emitted = st.emitted ∧
      (abortBuild st).seq = st.seq ∧
      (abortBuild st).logs = st.logs ++ ["Pkt create error"]) ∧
    (∀ st', dnsflow_pkt_build st cip d = st' →
      st'.emitted = st.emitted → st'.buf = [] →
      appendSet st cip d = none ∧ st' = abortBuild st) := by
  obtain ⟨hs, he, hl⟩ := startBuf_fields st
  constructor
  · rintro ⟨pre, n, suf, hsplit, hbig⟩
    have hnone : copyNames ((startBuf st).buf.length + 8)
        (d.names.take (min d.names.length 255)) = none := by
      rw [copyNames_eq_none_iff]
      exact ⟨pre, n, suf, hsplit, by omega⟩
    have happ : appendSet st cip d = none := by
      rw [appendSet_eq_none_iff]
      exact hnone
    refine ⟨?_, rfl, ?_, ?_, ?_⟩
    · unfold dnsflow_pkt_build
      rw [happ]
    · simp [abortBuild, he]
    · simp [abortBuild, hs]
    · simp [abortBuild, hl]
  · intro st' heq hemit hbuf
    rcases happ : appendSet st cip d with _ | st2
    · refine ⟨rfl, ?_⟩
      rw [← heq]
      unfold dnsflow_pkt_build
      rw [happ]
    · exfalso
      have hlen2 : st2.buf.length =
          (startBuf st).buf.length + (setWire (startBuf st).buf.length cip d).length :=
        (appendSet_fields happ).2.2.2
      have hsw := setWire_length (startBuf st).buf.length cip d
      have hpos : st2.buf.length ≠ 0 := by omega
      have hpb : dnsflow_pkt_build st cip d =
          (if 1200 ≤ st2.buf.length ∨ st2.buf.getD 1 0 = 255 then
            dnsflow_pkt_send_data st2 else st2) := by
        unfold dnsflow_pkt_build
        rw [happ]
      rw [hpb] at heq
      by_cases htrig : 1200 ≤ st2.buf.length ∨ st2.buf.getD 1 0 = 255
      · rw [if_pos htrig] at heq
        unfold dnsflow_pkt_send_data at heq
        rw [if_neg hpos] at heq
        rw [← heq] at hemit
        simp only [] at hemit
        have := congrArg List.length hemit
        have hemit2 : st2.emitted = st.emitted := (appendSet_fields happ).2.1
        rw [hemit2] at this
        simp at this
      · rw [if_neg htrig] at heq
        rw [← heq] at hbuf
        rw [hbuf] at hpos
        simp at hpos

set_option maxRecDepth 100000 in
/-- C6 witness: on `c6st` the copy of the 255-byte name would end at offset
65 799 > 65 535, and the guard discards the buffer without emitting or
advancing the sequence number. -/
theorem c6_overflow_guard_witness :
    (dnsflow_pkt_build c6st [9, 9, 9, 9] c6data = abortBuild c6st ∧
      (abortBuild c6st).buf = [] ∧ (abortBuild c6st).emitted = c6st.emitted ∧
      (abortBuild c6st).seq = c6st.seq ∧
      (abortBuild c6st).logs = c6st.logs ++ ["Pkt create error"]) ∧
    (appendSet c6st [9, 9, 9, 9] c6data = none ∧
      abortBuild c6st = abortBuild c6st) := by
  have hbig : ∃ pre n suf,
      c6data.names.take (min c6data.names.length 255) = pre ++ n :: suf ∧
      65535 < (startBuf c6st).buf.length + 8 + pre.flatten.length + n.length := by
    refine ⟨[], List.replicate 255 7, [], by simp [c6data], ?_⟩
    have h0 : startBuf c6st = c6st := by
      unfold startBuf
      rw [if_neg]
      simp only [c6st, List.length_replicate]
      norm_num
    have h1 : (startBuf c6st).buf.length = 65528 := by
      rw [h0]
      simp only [c6st, List.length_replicate]
    rw [h1]
    simp only [List.flatten_nil, List.length_nil, List.length_replicate]
    norm_num
  have ha := (c6_overflow_guard c6st [9, 9, 9, 9] c6data).1 hbig
  refine ⟨ha, ?_, rfl⟩
  exact (c6_overflow_guard c6st [9, 9, 9, 9] c6data).2 (abortBuild c6st) ha.1
    ha.2.2.1 ha.2.1 |>.1

/-- C2 (amended): within one worker run the shared per-worker counter starts
at 1 and is incremented exactly once per emitted buffer (data and stats
alike), so the counter always equals one plus the number of emitted buffers
and the `k`-th emitted buffer (0-based) carries sequence number
`(1 + k) mod 2^32`; consecutive emitted buffers carry strictly increasing
sequence numbers as long as the 32-bit counter has not wrapped
(`k + 2 < 2^32`). -/
theorem c2_sequence_numbers (evs : List FlowEv) :
    (flowRun flowInit evs).seq = 1 + (flowRun flowInit evs).emitted.length ∧
    ∀ k, k < (flowRun flowInit evs).emitted.length →
      wireSeq ((flowRun flowInit evs).emitted.getD k []) = (1 + k) % 2 ^ 32 ∧
      (k + 1 < (flowRun flowInit evs).emitted.length → k + 2 < 2 ^ 32 →
        wireSeq ((flowRun flowInit evs).emitted.getD k []) <
          wireSeq ((flowRun flowInit evs).emitted.getD (k + 1) [])) := by
  obtain ⟨hseq, _, hemit⟩ := flowRun_inv evs flowInit_inv
  refine ⟨hseq, ?_⟩
  intro k hk
  refine ⟨hemit k hk, ?_⟩
  intro hk1 hlt
  rw [hemit k hk, hemit (k + 1) hk1]
  have h32 : (2 : Nat) ^ 32 = 4294967296 := by norm_num
  rw [h32] at hlt ⊢
  omega

/-- C2 witness: a run of two stats ticks emits buffers numbered 1 then 2,
strictly increasing. -/
theorem c2_sequence_numbers_witness :
    wireSeq ((flowRun flowInit [FlowEv.stats ⟨0, 0, 0, 0⟩ 0,
        FlowEv.stats ⟨0, 0, 0, 0⟩ 0]).emitted.getD 0 []) = (1 + 0) % 2 ^ 32 ∧
    wireSeq ((flowRun flowInit [FlowEv.stats ⟨0, 0, 0, 0⟩ 0,
        FlowEv.stats ⟨0, 0, 0, 0⟩ 0]).emitted.getD 0 []) <
      wireSeq ((flowRun flowInit [FlowEv.stats ⟨0, 0, 0, 0⟩ 0,
        FlowEv.stats ⟨0, 0, 0, 0⟩ 0]).emitted.getD (0 + 1) []) :=
  ⟨((c2_sequence_numbers [FlowEv.stats ⟨0, 0, 0, 0⟩ 0,
      FlowEv.stats ⟨0, 0, 0, 0⟩ 0]).2 0 (by decide)).1,
   ((c2_sequence_numbers [FlowEv.stats ⟨0, 0, 0, 0⟩ 0,
      FlowEv.stats ⟨0, 0, 0, 0⟩ 0]).2 0 (by decide)).2 (by decide) (by norm_num)⟩

lemma statsRun_emitted_len (ds : DcapStat) (rate : Nat) :
    ∀ (n : Nat) (st : FlowState),
      (flowRun st (List.replicate n (FlowEv.stats ds rate))).emitted.length =
        st.emitted.length + n := by
  intro n
  induction n with
  | zero =>
    intro st
    simp [flowRun]
  | succ m ih =>
    intro st
    rw [List.replicate_succ, flowRun, List.foldl_cons]
    show (flowRun (flowStep st (FlowEv.stats ds rate))
      (List.replicate m (FlowEv.stats ds rate))).emitted.length = _
    rw [ih]
    simp only [flowStep, dnsflow_stats_cb, List.length_append,
      List.length_cons, List.length_nil]
    omega

/-- C2 is refuted as stated: in a run of 2^32 stats ticks the 32-bit counter
wraps, so the last emitted buffer carries sequence number 0, which is not
strictly greater than its predecessor's 2^32 − 1. -/
theorem c2_counterexample :
    wireSeq ((flowRun flowInit (List.replicate (2 ^ 32)
        (FlowEv.stats ⟨0, 0, 0, 0⟩ 0))).emitted.getD (2 ^ 32 - 2) []) =
      2 ^ 32 - 1 ∧
    wireSeq ((flowRun flowInit (List.replicate (2 ^ 32)
        (FlowEv.stats ⟨0, 0, 0, 0⟩ 0))).emitted.getD (2 ^ 32 - 1) []) = 0 ∧
    ¬ (wireSeq ((flowRun flowInit (List.replicate (2 ^ 32)
          (FlowEv.stats ⟨0, 0, 0, 0⟩ 0))).emitted.getD (2 ^ 32 - 2) []) <
       wireSeq ((flowRun flowInit (List.replicate (2 ^ 32)
          (FlowEv.stats ⟨0, 0, 0, 0⟩ 0))).emitted.getD (2 ^ 32 - 1) [])) := by
  have h32 : (2 : Nat) ^ 32 = 4294967296 := by norm_num
  have hlen := statsRun_emitted_len ⟨0, 0, 0, 0⟩ 0 (2 ^ 32) flowInit
  have hlen0 : (flowInit.emitted).length = 0 := rfl
  rw [hlen0] at hlen
  obtain ⟨_, _, hemit⟩ :=
    flowRun_inv (List.replicate (2 ^ 32) (FlowEv.stats ⟨0, 0, 0, 0⟩ 0))
      flowInit_inv
  have e1 := hemit (2 ^ 32 - 2) (by rw [hlen, h32]; omega)
  have e2 := hemit (2 ^ 32 - 1) (by rw [hlen, h32]; omega)
  rw [e1, e2, h32]
  norm_num

lemma namesFitB_replicate (x : List Nat) (hx : x.length = 255) :
    ∀ (k L : Nat), L + k * 255 ≤ 65534 →
      namesFitB L (List.replicate k x) = true := by
  intro k
  induction k with
  | zero =>
    intro L _
    rfl
  | succ m ih =>
    intro L hle
    rw [List.replicate_succ]
    have h1 : L + x.length ≤ 65534 := by omega
    simp only [namesFitB, hx, Bool.and_eq_true, decide_eq_true_eq]
    exact ⟨by omega, ih (L + 255) (by omega)⟩

lemma flatten_replicate_length (x : List Nat) :
    ∀ k : Nat, (List.replicate k x).flatten.length = k * x.length := by
  intro k
  induction k with
  | zero => simp
  | succ m ih =>
    rw [List.replicate_succ, List.flatten_cons, List.length_append, ih]
    ring

/-- C10 is violated by the code: on `c10data` the per-name guard never fires
(names end at offset 65 041), yet padding and the 255 four-byte address
writes continue to offset 66 063 — the completed set occupies 66 064 bytes,
529 bytes past the 65 535-byte buffer, so bytes are written at offsets at or
above the capacity. -/
theorem c10_buffer_overflow :
    ∃ st2, appendSet ⟨[], 1, [], []⟩ [10, 0, 0, 1] c10data = some st2 ∧
      st2.buf.length = 66064 ∧ 65535 < st2.buf.length := by
  have hsb : (startBuf (⟨[], 1, [], []⟩ : FlowState)).buf.length = 8 := by
    simp [startBuf, dnsflowHdrBytes]
  have htake : c10data.names.take (min c10data.names.length 255) =
      List.replicate 255 (List.replicate 255 1) := by
    simp only [c10data, List.length_replicate, Nat.min_self, List.take_replicate]
  have hfit : namesFitB ((startBuf (⟨[], 1, [], []⟩ : FlowState)).buf.length + 8)
      (c10data.names.take (min c10data.names.length 255)) = true := by
    rw [hsb, htake]
    exact namesFitB_replicate (List.replicate 255 1)
      (by rw [List.length_replicate]) 255 16 (by norm_num)
  obtain ⟨st2, happ⟩ := appendSet_of_fit hfit
  have hflat : (c10data.names.take (min c10data.names.length 255)).flatten.length
      = 65025 := by
    rw [htake, flatten_replicate_length, List.length_replicate]
  have hic : min c10data.ips.length 255 = 255 := by
    simp only [c10data, List.length_replicate, Nat.min_self]
  have hlen : st2.buf.length = 66064 := by
    have hf := (appendSet_fields happ).2.2.2
    rw [hf, setWire_length, hsb, hflat, hic]
    norm_num [padLen4]
  exact ⟨st2, happ, hlen, by omega⟩

